import Mathlib

/-!
Verification development for the WealthTrack AI investment tracker.

The development shallowly embeds the core engine of the tracker:
the position merge engine (handleAddHoldings in App.tsx), the price
synchronizer (refreshMarketPrices in services/marketDataService.ts),
the fund quote resolution policy (fetchFundData in the same file) and
the profit sharing calculator (the calculation memo in
components/ProfitSharing.tsx).

Modelling conventions:
- JavaScript numbers are modelled as exact rationals.  A numeric value
  that may be absent or NaN is modelled as an option, with none standing
  for both absent and NaN; the JavaScript falsiness test on a present
  number is the test against 0.
- Strings are modelled as Lean strings; the falsiness test on a string
  is the test against the empty string.
- The asynchronous quote fetches are modelled by passing the per-index
  fetch outcome as an explicit argument to the synchronizer.
-/

namespace WealthTrack

/-- Asset type enum from types.ts. -/
inductive AssetType where
  | STOCK
  | FUND
deriving DecidableEq, Repr

/-- The Holding record from types.ts.  The optional fields
yesterdayPrice and priceDate are options; buyPrice, quantity and
currentPrice are required numbers. -/
structure Holding where
  id : String
  name : String
  code : String
  type : AssetType
  buyDate : String
  buyPrice : ℚ
  quantity : ℚ
  currentPrice : ℚ
  yesterdayPrice : Option ℚ
  priceDate : Option String
deriving DecidableEq, Repr

/-- The merged record built in the match branch of handleAddHoldings
(App.tsx lines 117 to 134): weighted average cost, summed quantity,
all other fields spread from the existing holding. -/
def mergedHolding (existing incoming : Holding) : Holding :=
  let totalOldCost := existing.buyPrice * existing.quantity
  let totalNewCost := incoming.buyPrice * incoming.quantity
  let newTotalQty := existing.quantity + incoming.quantity
  let newAvgPrice := if newTotalQty > 0 then (totalOldCost + totalNewCost) / newTotalQty else 0
  { existing with quantity := newTotalQty, buyPrice := newAvgPrice }

/-- One step of handleAddHoldings (App.tsx lines 111 to 140): find the
first existing holding with the same code and type, replace it by the
merged record; if none matches, append the incoming entry at the end. -/
def mergeIncoming : List Holding → Holding → List Holding
  | [], incoming => [incoming]
  | h :: rest, incoming =>
    if h.code = incoming.code ∧ h.type = incoming.type then
      mergedHolding h incoming :: rest
    else
      h :: mergeIncoming rest incoming

/-- handleAddHoldings (App.tsx): the incoming batch is processed
strictly sequentially against a running accumulator seeded with the
current holding list. -/
def handleAddHoldings (holdings newHoldings : List Holding) : List Holding :=
  newHoldings.foldl mergeIncoming holdings

/-- Identity keys of a holding list, in order. -/
def keys (l : List Holding) : List (String × AssetType) :=
  l.map (fun h => (h.code, h.type))

/-- Number of holdings in a list carrying a given identity key. -/
def keyCount (c : String) (t : AssetType) (l : List Holding) : ℕ :=
  (l.filter (fun h => h.code = c ∧ h.type = t)).length

/-- Total quantity held under a given identity key. -/
def keyQty (c : String) (t : AssetType) (l : List Holding) : ℚ :=
  ((l.filter (fun h => h.code = c ∧ h.type = t)).map Holding.quantity).sum

/-- The partial quote record returned by a quote adapter
(a Partial Holding in marketDataService.ts): every field may be absent,
and a numeric field may also be NaN, which is folded into none. -/
structure PartialHolding where
  name : Option String
  currentPrice : Option ℚ
  yesterdayPrice : Option ℚ
  priceDate : Option String
deriving DecidableEq, Repr

/-- Outcome of one adapter call inside refreshMarketPrices: data
returned, null returned (no data), or an exception thrown. -/
inductive FetchOutcome where
  | ok (data : PartialHolding)
  | noData
  | threw
deriving DecidableEq, Repr

/-- JavaScript shortcircuit or on a possibly absent number against a
number fallback: the left value wins unless it is absent, NaN or 0. -/
def jsOrNum (v : Option ℚ) (fallback : ℚ) : ℚ :=
  match v with
  | some x => if x = 0 then fallback else x
  | none => fallback

/-- JavaScript shortcircuit or on a possibly absent string against a
string fallback: the left value wins unless it is absent or empty. -/
def jsOrStr (v : Option String) (fallback : String) : String :=
  match v with
  | some s => if s = "" then fallback else s
  | none => fallback

/-- JavaScript shortcircuit or on a possibly absent string against a
possibly absent fallback, as used for priceDate. -/
def jsOrDate (v : Option String) (fallback : Option String) : Option String :=
  match v with
  | some s => if s = "" then fallback else some s
  | none => fallback

/-- The merge-back step of refreshMarketPrices
(marketDataService.ts lines 128 to 135) for one holding, given the
fetch outcome for it.  A null result or a thrown error leaves the
holding untouched; returned data is merged field by field with the
shortcircuit-or fallbacks of the source. -/
def refreshOne (h : Holding) (o : FetchOutcome) : Holding :=
  match o with
  | .ok data =>
    { h with
      name := jsOrStr data.name h.name,
      currentPrice := jsOrNum data.currentPrice h.currentPrice,
      yesterdayPrice := some (jsOrNum data.yesterdayPrice h.currentPrice),
      priceDate := jsOrDate data.priceDate h.priceDate }
  | .noData => h
  | .threw => h

/-- The sequential for loop of refreshMarketPrices, carrying the
current index so that each position receives its own fetch outcome. -/
def refreshFrom (fetch : ℕ → FetchOutcome) : ℕ → List Holding → List Holding
  | _, [] => []
  | i, h :: rest => refreshOne h (fetch i) :: refreshFrom fetch (i + 1) rest

/-- refreshMarketPrices (marketDataService.ts lines 114 to 143): walk
the holding list in order, updating each element in place from its own
fetch outcome. -/
def refreshMarketPrices (holdings : List Holding) (fetch : ℕ → FetchOutcome) : List Holding :=
  refreshFrom fetch 0 holdings

/-- Day profit and loss contribution of one holding, as computed by the
portfolio summary in App.tsx: zero when yesterdayPrice is absent or
falsy, the price move times the quantity otherwise. -/
def dayPL (h : Holding) : ℚ :=
  match h.yesterdayPrice with
  | some y => if y = 0 then 0 else (h.currentPrice - y) * h.quantity
  | none => 0

/-- Result record of the profit sharing calculation in
components/ProfitSharing.tsx. -/
structure SharingCalc where
  sharingAmount : ℚ
  guaranteeAmount : ℚ
deriving DecidableEq, Repr

/-- The calculation memo of components/ProfitSharing.tsx
(lines 12 to 56), with the decimal policy constants written as exact
rationals. -/
def calculation (totalCost totalProfitLoss : ℚ) : SharingCalc :=
  if totalCost = 0 then
    { sharingAmount := 0, guaranteeAmount := 0 }
  else if totalProfitLoss < 0 then
    { sharingAmount := 0, guaranteeAmount := |totalProfitLoss| }
  else
    let profitRate := totalProfitLoss / totalCost
    let thresholdLow : ℚ := 3 / 100
    let thresholdHigh : ℚ := 5 / 100
    let profitAt3Percent := totalCost * thresholdLow
    let profitAt5Percent := totalCost * thresholdHigh
    if profitRate ≤ thresholdLow then
      { sharingAmount := 0, guaranteeAmount := 0 }
    else if profitRate > thresholdLow ∧ profitRate ≤ thresholdHigh then
      { sharingAmount := (totalProfitLoss - profitAt3Percent) * (20 / 100),
        guaranteeAmount := 0 }
    else
      { sharingAmount :=
          (profitAt5Percent - profitAt3Percent) * (20 / 100)
            + (totalProfitLoss - profitAt5Percent) * (50 / 100),
        guaranteeAmount := 0 }

/-- Normalized fund quote produced by the jsonpgz callback inside
fetchFundData (marketDataService.ts lines 38 to 59). -/
structure FundQuote where
  name : String
  currentPrice : ℚ
  yesterdayPrice : ℚ
  priceDate : String
deriving DecidableEq, Repr

/-- Body of the jsonpgz callback of fetchFundData
(marketDataService.ts lines 38 to 59).  The parseFloat results for the
estimate gsz and the NAV dwjz are passed in as options, with none
standing for NaN; the estimate is used when it parsed and is strictly
positive, otherwise the NAV; a NaN chosen price or NaN NAV collapses
to 0. -/
def fetchFundResolve (fundName : String) (est nav : Option ℚ) (gztime jzrq : String) :
    FundQuote :=
  let isEstimateValid : Bool := match est with
    | some e => decide (0 < e)
    | none => false
  let currentPrice : Option ℚ := if isEstimateValid then est else nav
  let yesterdayPrice : Option ℚ := nav
  let priceDate := if isEstimateValid then gztime else jzrq
  { name := fundName,
    currentPrice := match currentPrice with | some v => v | none => 0,
    yesterdayPrice := match yesterdayPrice with | some v => v | none => 0,
    priceDate := priceDate }

/-- Fund quote resolution policy as the specification words it: prefer
the estimate when it is a valid positive number, otherwise fall back to
NAV; the current price is the chosen value with 0 when nothing parses,
the yesterday price is the NAV value always with 0 when it fails to
parse, and the price date is the estimate timestamp exactly when the
estimate was used, else the NAV date.  Written independently of the
source function, to be compared with fetchFundResolve. -/
def fundQuoteSpec (fundName : String) (est nav : Option ℚ) (gztime jzrq : String) :
    FundQuote :=
  let estValid : Bool := match est with
    | some e => decide (0 < e)
    | none => false
  { name := fundName,
    currentPrice := if estValid then est.getD 0 else nav.getD 0,
    yesterdayPrice := nav.getD 0,
    priceDate := if estValid then gztime else jzrq }

/-- Concrete fund position used by witnesses: 100 units bought at 10. -/
def sampleExisting : Holding :=
  { id := "h1", name := "Fund A", code := "000001", type := .FUND,
    buyDate := "2024-01-01", buyPrice := 10, quantity := 100,
    currentPrice := 10, yesterdayPrice := none, priceDate := none }

/-- Concrete incoming entry used by witnesses: 50 units bought at 12,
same identity key as sampleExisting. -/
def sampleIncoming : Holding :=
  { id := "h2", name := "Fund A", code := "000001", type := .FUND,
    buyDate := "2024-02-01", buyPrice := 12, quantity := 50,
    currentPrice := 12, yesterdayPrice := none, priceDate := none }

/-- Second concrete incoming entry with the same identity key. -/
def sampleIncoming2 : Holding :=
  { id := "h3", name := "Fund A", code := "000001", type := .FUND,
    buyDate := "2024-03-01", buyPrice := 14, quantity := 30,
    currentPrice := 14, yesterdayPrice := none, priceDate := none }

/-- A stock holding with an identity key different from the samples. -/
def otherHolding : Holding :=
  { id := "s1", name := "Stock B", code := "600000", type := .STOCK,
    buyDate := "2024-01-15", buyPrice := 7, quantity := 200,
    currentPrice := 8, yesterdayPrice := some 7, priceDate := some "2024-06-01" }

/-- First element of a duplicate-key pre-batch set. -/
def dupFirst : Holding :=
  { id := "x1", name := "X", code := "600000", type := .STOCK,
    buyDate := "", buyPrice := 1, quantity := 1,
    currentPrice := 1, yesterdayPrice := none, priceDate := none }

/-- Second element of a duplicate-key pre-batch set. -/
def dupSecond : Holding := { dupFirst with id := "x2" }

/-- First incoming entry aimed at the duplicate key. -/
def dupIncA : Holding := { dupFirst with id := "x3" }

/-- Second incoming entry aimed at the duplicate key. -/
def dupIncB : Holding := { dupFirst with id := "x4" }

/-- Holding used in the synchronizer counterexamples and witnesses:
prior current price 1, one unit held, no yesterday price. -/
def syncHolding : Holding :=
  { id := "p1", name := "Fund P", code := "000002", type := .FUND,
    buyDate := "2024-01-01", buyPrice := 1, quantity := 1,
    currentPrice := 1, yesterdayPrice := none, priceDate := none }

/-- Adapter data that returns a new positive current price but no
usable yesterday price. -/
def syncDataNoYesterday : PartialHolding :=
  { name := none, currentPrice := some 2, yesterdayPrice := none, priceDate := none }

/-- Fetch outcome map that always returns syncDataNoYesterday. -/
def syncFetchNoYesterday : ℕ → FetchOutcome := fun _ => .ok syncDataNoYesterday

/-- Holding used in the current-price merge-back counterexample:
prior current price 5. -/
def negHolding : Holding :=
  { id := "p2", name := "Stock N", code := "600001", type := .STOCK,
    buyDate := "2024-01-01", buyPrice := 5, quantity := 10,
    currentPrice := 5, yesterdayPrice := some 5, priceDate := none }

/-- Adapter data carrying a negative returned current price. -/
def negData : PartialHolding :=
  { name := none, currentPrice := some (-1), yesterdayPrice := none, priceDate := none }

/-- Fetch outcome map that always returns negData. -/
def negFetch : ℕ → FetchOutcome := fun _ => .ok negData

/-- Fetch outcome map that always throws. -/
def threwFetch : ℕ → FetchOutcome := fun _ => .threw

/-! ### Merge engine lemmas -/

theorem mergeIncoming_append_match (pre post : List Holding) (existing incoming : Holding)
    (hpre : ∀ h ∈ pre, ¬(h.code = incoming.code ∧ h.type = incoming.type))
    (hmatch : existing.code = incoming.code ∧ existing.type = incoming.type) :
    mergeIncoming (pre ++ existing :: post) incoming =
      pre ++ mergedHolding existing incoming :: post := by
  induction pre with
  | nil => simp only [List.nil_append, mergeIncoming, if_pos hmatch]
  | cons x rest ih =>
    have hx := hpre x (List.mem_cons_self x rest)
    simp only [List.cons_append, mergeIncoming, if_neg hx, List.append_eq]
    rw [ih fun y hy => hpre y (List.mem_cons_of_mem x hy)]

/-- C1: when handleAddHoldings processes an incoming entry whose code
and type match an existing holding, the result replaces that holding
in place by the merged record, whose quantity is the sum of the
quantities and whose buy price is the weighted average when the summed
quantity is positive and 0 when the summed quantity is zero, for all
non-negative prices and quantities. -/
theorem merge_weighted_average (pre post : List Holding) (existing incoming : Holding)
    (hpre : ∀ h ∈ pre, ¬(h.code = incoming.code ∧ h.type = incoming.type))
    (hmatch : existing.code = incoming.code ∧ existing.type = incoming.type)
    (hp1 : 0 ≤ existing.buyPrice) (hp2 : 0 ≤ incoming.buyPrice)
    (hq1 : 0 ≤ existing.quantity) (hq2 : 0 ≤ incoming.quantity) :
    handleAddHoldings (pre ++ existing :: post) [incoming] =
        pre ++ mergedHolding existing incoming :: post
    ∧ (mergedHolding existing incoming).quantity = existing.quantity + incoming.quantity
    ∧ (0 < existing.quantity + incoming.quantity →
        (mergedHolding existing incoming).buyPrice =
          (existing.buyPrice * existing.quantity + incoming.buyPrice * incoming.quantity) /
            (existing.quantity + incoming.quantity))
    ∧ (existing.quantity + incoming.quantity = 0 →
        (mergedHolding existing incoming).buyPrice = 0) := by
  refine ⟨?_, rfl, ?_, ?_⟩
  · exact mergeIncoming_append_match pre post existing incoming hpre hmatch
  · intro hq
    simp [mergedHolding, hq]
  · intro hq
    simp [mergedHolding, hq]

/-- Witness for merge_weighted_average, at concrete scenario 1 of the
specification: 100 units at 10 merged with 50 units at 12 give 150
units at 32 thirds. -/
theorem merge_weighted_average_witness :
    handleAddHoldings [sampleExisting] [sampleIncoming] =
        [mergedHolding sampleExisting sampleIncoming]
    ∧ (mergedHolding sampleExisting sampleIncoming).quantity = 150
    ∧ (mergedHolding sampleExisting sampleIncoming).buyPrice = 32 / 3 := by
  have h := merge_weighted_average [] [] sampleExisting sampleIncoming
    (by simp) ⟨rfl, rfl⟩
    (by norm_num [sampleExisting]) (by norm_num [sampleIncoming])
    (by norm_num [sampleExisting]) (by norm_num [sampleIncoming])
  refine ⟨by simpa using h.1, ?_, ?_⟩
  · rw [h.2.1]; norm_num [sampleExisting, sampleIncoming]
  · rw [h.2.2.1 (by norm_num [sampleExisting, sampleIncoming])]
    norm_num [sampleExisting, sampleIncoming]

theorem keys_mergeIncoming (l : List Holding) (incoming : Holding) :
    keys (mergeIncoming l incoming) =
      if (incoming.code, incoming.type) ∈ keys l then keys l
      else keys l ++ [(incoming.code, incoming.type)] := by
  induction l with
  | nil => simp [mergeIncoming, keys]
  | cons x rest ih =>
    by_cases hx : x.code = incoming.code ∧ x.type = incoming.type
    · have hk : ((incoming.code, incoming.type) : String × AssetType) = (x.code, x.type) := by
        rw [hx.1, hx.2]
      simp only [mergeIncoming, if_pos hx, keys, List.map_cons]
      rw [if_pos (by rw [hk]; exact List.mem_cons_self _ _)]
      rfl
    · have hne : ((incoming.code, incoming.type) : String × AssetType) ≠ (x.code, x.type) := by
        intro hEq
        rw [Prod.mk.injEq] at hEq
        exact hx ⟨hEq.1.symm, hEq.2.symm⟩
      simp only [mergeIncoming, if_neg hx, keys, List.map_cons] at *
      rw [ih]
      by_cases hmem : (incoming.code, incoming.type) ∈ List.map (fun h => (h.code, h.type)) rest
      · rw [if_pos hmem, if_pos (List.mem_cons_of_mem _ hmem)]
      · rw [if_neg hmem, if_neg (by simp [List.mem_cons, hne, hmem]), List.cons_append]

/-- C5: the identity key uniqueness invariant is preserved by the
merge engine: if the pairs of code and asset type are pairwise
distinct in the current holding set, they are again pairwise distinct
after handleAddHoldings processes any incoming batch. -/
theorem merge_keys_nodup (hs ns : List Holding) (h : (keys hs).Nodup) :
    (keys (handleAddHoldings hs ns)).Nodup := by
  induction ns generalizing hs with
  | nil => exact h
  | cons n rest ih =>
    have hstep : (keys (mergeIncoming hs n)).Nodup := by
      rw [keys_mergeIncoming]
      by_cases hmem : (n.code, n.type) ∈ keys hs
      · rwa [if_pos hmem]
      · rw [if_neg hmem]
        simp [List.nodup_append, h, hmem]
    exact ih (mergeIncoming hs n) hstep

/-- Witness for merge_keys_nodup on concrete holdings. -/
theorem merge_keys_nodup_witness :
    (keys (handleAddHoldings [sampleExisting, otherHolding] [sampleIncoming])).Nodup :=
  merge_keys_nodup [sampleExisting, otherHolding] [sampleIncoming] (by decide)

theorem mergeIncoming_getElem_untouched (l : List Holding) (inc : Holding) (i : ℕ)
    (h0 : Holding) (hi : l[i]? = some h0)
    (hnm : ¬(h0.code = inc.code ∧ h0.type = inc.type)) :
    (mergeIncoming l inc)[i]? = some h0 := by
  induction l generalizing i with
  | nil => simp at hi
  | cons x rest ih =>
    cases i with
    | zero =>
      simp only [List.getElem?_cons_zero, Option.some.injEq] at hi
      subst hi
      simp [mergeIncoming, if_neg hnm]
    | succ j =>
      simp only [List.getElem?_cons_succ] at hi
      by_cases hx : x.code = inc.code ∧ x.type = inc.type
      · simp [mergeIncoming, if_pos hx, hi]
      · simp [mergeIncoming, if_neg hx, ih j hi]

theorem handleAddHoldings_getElem_untouched (ns : List Holding) :
    ∀ (hs : List Holding) (i : ℕ) (h0 : Holding), hs[i]? = some h0 →
      (∀ n ∈ ns, ¬(h0.code = n.code ∧ h0.type = n.type)) →
      (handleAddHoldings hs ns)[i]? = some h0 := by
  induction ns with
  | nil => intro hs i h0 hi _; exact hi
  | cons n rest ih =>
    intro hs i h0 hi hnm
    exact ih (mergeIncoming hs n) i h0
      (mergeIncoming_getElem_untouched hs n i h0 hi (hnm n (List.mem_cons_self n rest)))
      (fun m hm => hnm m (List.mem_cons_of_mem n hm))

/-- C6: frame condition of the merge engine.  When handleAddHoldings
merges an incoming entry into the first matching existing holding, the
merged record agrees with the existing one on id, name, code, type,
buyDate, currentPrice, yesterdayPrice and priceDate, so only quantity
and buyPrice may change; and every existing holding whose code and
type match no incoming entry of the batch keeps its exact record at
its exact position. -/
theorem merge_frame (pre post : List Holding) (existing incoming : Holding)
    (hpre : ∀ h ∈ pre, ¬(h.code = incoming.code ∧ h.type = incoming.type))
    (hmatch : existing.code = incoming.code ∧ existing.type = incoming.type)
    (hs ns : List Holding) (i : ℕ) (h0 : Holding)
    (hi : hs[i]? = some h0)
    (hnomatch : ∀ n ∈ ns, ¬(h0.code = n.code ∧ h0.type = n.type)) :
    (handleAddHoldings (pre ++ existing :: post) [incoming] =
        pre ++ mergedHolding existing incoming :: post
      ∧ (mergedHolding existing incoming).id = existing.id
      ∧ (mergedHolding existing incoming).name = existing.name
      ∧ (mergedHolding existing incoming).code = existing.code
      ∧ (mergedHolding existing incoming).type = existing.type
      ∧ (mergedHolding existing incoming).buyDate = existing.buyDate
      ∧ (mergedHolding existing incoming).currentPrice = existing.currentPrice
      ∧ (mergedHolding existing incoming).yesterdayPrice = existing.yesterdayPrice
      ∧ (mergedHolding existing incoming).priceDate = existing.priceDate)
    ∧ (handleAddHoldings hs ns)[i]? = some h0 := by
  refine ⟨⟨?_, rfl, rfl, rfl, rfl, rfl, rfl, rfl, rfl⟩, ?_⟩
  · exact mergeIncoming_append_match pre post existing incoming hpre hmatch
  · exact handleAddHoldings_getElem_untouched ns hs i h0 hi hnomatch

/-- Witness for merge_frame: merging into the first sample position
never moves or edits the unrelated stock holding at index 1. -/
theorem merge_frame_witness :
    (handleAddHoldings [sampleExisting] [sampleIncoming] =
        [mergedHolding sampleExisting sampleIncoming]
      ∧ (mergedHolding sampleExisting sampleIncoming).id = sampleExisting.id
      ∧ (mergedHolding sampleExisting sampleIncoming).name = sampleExisting.name
      ∧ (mergedHolding sampleExisting sampleIncoming).code = sampleExisting.code
      ∧ (mergedHolding sampleExisting sampleIncoming).type = sampleExisting.type
      ∧ (mergedHolding sampleExisting sampleIncoming).buyDate = sampleExisting.buyDate
      ∧ (mergedHolding sampleExisting sampleIncoming).currentPrice = sampleExisting.currentPrice
      ∧ (mergedHolding sampleExisting sampleIncoming).yesterdayPrice = sampleExisting.yesterdayPrice
      ∧ (mergedHolding sampleExisting sampleIncoming).priceDate = sampleExisting.priceDate)
    ∧ (handleAddHoldings [sampleExisting, otherHolding] [sampleIncoming])[1]? =
        some otherHolding := by
  have h := merge_frame [] [] sampleExisting sampleIncoming (by simp) ⟨rfl, rfl⟩
    [sampleExisting, otherHolding] [sampleIncoming] 1 otherHolding (by rfl) (by decide)
  exact ⟨⟨by simpa using h.1.1, h.1.2.1, h.1.2.2.1, h.1.2.2.2.1, h.1.2.2.2.2.1,
    h.1.2.2.2.2.2.1, h.1.2.2.2.2.2.2.1, h.1.2.2.2.2.2.2.2.1, h.1.2.2.2.2.2.2.2.2⟩, h.2⟩

theorem mergeIncoming_no_match (l : List Holding) (inc : Holding)
    (h : ∀ x ∈ l, ¬(x.code = inc.code ∧ x.type = inc.type)) :
    mergeIncoming l inc = l ++ [inc] := by
  induction l with
  | nil => rfl
  | cons x rest ih =>
    simp only [mergeIncoming, if_neg (h x (List.mem_cons_self x rest)), List.cons_append]
    rw [ih fun y hy => h y (List.mem_cons_of_mem x hy)]

theorem keyCount_eq_zero (c : String) (t : AssetType) (l : List Holding) :
    keyCount c t l = 0 ↔ ∀ x ∈ l, ¬(x.code = c ∧ x.type = t) := by
  simp [keyCount, List.length_eq_zero, List.filter_eq_nil_iff]

theorem keyCount_append_match (c : String) (t : AssetType) (l : List Holding)
    (x : Holding) (hx : x.code = c ∧ x.type = t) :
    keyCount c t (l ++ [x]) = keyCount c t l + 1 := by
  simp [keyCount, List.filter_append, hx]

theorem keyQty_append_match (c : String) (t : AssetType) (l : List Holding)
    (x : Holding) (hx : x.code = c ∧ x.type = t) :
    keyQty c t (l ++ [x]) = keyQty c t l + x.quantity := by
  simp [keyQty, List.filter_append, hx]

theorem mergeIncoming_keyCount_qty (l : List Holding) (inc : Holding)
    (hpos : 0 < keyCount inc.code inc.type l) :
    keyCount inc.code inc.type (mergeIncoming l inc) = keyCount inc.code inc.type l
    ∧ keyQty inc.code inc.type (mergeIncoming l inc) =
        keyQty inc.code inc.type l + inc.quantity := by
  induction l with
  | nil => simp [keyCount] at hpos
  | cons x rest ih =>
    by_cases hx : x.code = inc.code ∧ x.type = inc.type
    · constructor
      · simp [mergeIncoming, if_pos hx, keyCount, List.filter_cons, hx, mergedHolding]
      · simp [mergeIncoming, if_pos hx, keyQty, List.filter_cons, hx, mergedHolding]
        ring
    · have hpos2 : 0 < keyCount inc.code inc.type rest := by
        simpa [keyCount, List.filter_cons, hx] using hpos
      constructor
      · simp [mergeIncoming, if_neg hx, keyCount, List.filter_cons, hx] at *
        exact (ih hpos2).1
      · simp [mergeIncoming, if_neg hx, keyQty, List.filter_cons, hx] at *
        exact (ih hpos2).2

/-- C4: processing a batch of two same-key entries equals processing
them as two consecutive single-entry calls, and over a pre-batch set
carrying the key at most once the batch leaves exactly one holding
with that key, holding the combined quantity. -/
theorem batch_self_merge (hs : List Holding) (a b : Holding)
    (hcode : b.code = a.code) (htype : b.type = a.type)
    (huniq : keyCount a.code a.type hs ≤ 1) :
    handleAddHoldings hs [a, b] = handleAddHoldings (handleAddHoldings hs [a]) [b]
    ∧ keyCount a.code a.type (handleAddHoldings hs [a, b]) = 1
    ∧ keyQty a.code a.type (handleAddHoldings hs [a, b]) =
        keyQty a.code a.type hs + a.quantity + b.quantity := by
  have hkey : ∀ l : List Holding, 0 < keyCount a.code a.type l →
      keyCount a.code a.type (mergeIncoming l b) = keyCount a.code a.type l
      ∧ keyQty a.code a.type (mergeIncoming l b) =
          keyQty a.code a.type l + b.quantity := by
    intro l hl
    have hb := mergeIncoming_keyCount_qty l b (by rwa [hcode, htype])
    rw [hcode, htype] at hb
    exact hb
  have hstep : keyCount a.code a.type (mergeIncoming hs a) = 1
      ∧ keyQty a.code a.type (mergeIncoming hs a) =
          keyQty a.code a.type hs + a.quantity := by
    rcases Nat.lt_or_ge 0 (keyCount a.code a.type hs) with hpos | hz
    · have ha := mergeIncoming_keyCount_qty hs a hpos
      exact ⟨by omega, ha.2⟩
    · have hz0 : keyCount a.code a.type hs = 0 := by omega
      have hnm := (keyCount_eq_zero a.code a.type hs).mp hz0
      rw [mergeIncoming_no_match hs a hnm]
      rw [keyCount_append_match a.code a.type hs a ⟨rfl, rfl⟩,
        keyQty_append_match a.code a.type hs a ⟨rfl, rfl⟩, hz0]
      exact ⟨rfl, rfl⟩
  have hb := hkey (mergeIncoming hs a) (by rw [hstep.1]; exact Nat.one_pos)
  refine ⟨rfl, ?_, ?_⟩
  · show keyCount a.code a.type (mergeIncoming (mergeIncoming hs a) b) = 1
    rw [hb.1, hstep.1]
  · show keyQty a.code a.type (mergeIncoming (mergeIncoming hs a) b) =
        keyQty a.code a.type hs + a.quantity + b.quantity
    rw [hb.2, hstep.2]

/-- Witness for batch_self_merge: one existing sample position plus a
two-row batch for the same fund leaves one holding of that key. -/
theorem batch_self_merge_witness :
    keyCount "000001" AssetType.FUND
        (handleAddHoldings [sampleExisting] [sampleIncoming, sampleIncoming2]) = 1 := by
  have h := batch_self_merge [sampleExisting] sampleIncoming sampleIncoming2 rfl rfl
    (by decide)
  exact h.2.1

/-- Counterexample to C4 as stated for every pre-batch holding set: on
a pre-batch set that already carries the key twice, the batch merges
only into the first match and leaves two holdings with the key. -/
theorem batch_self_merge_cex :
    keyCount "600000" AssetType.STOCK
        (handleAddHoldings [dupFirst, dupSecond] [dupIncA, dupIncB]) = 2 := by
  decide

/-! ### Price synchronizer lemmas -/

theorem refreshOne_id (h : Holding) (o : FetchOutcome) : (refreshOne h o).id = h.id := by
  cases o <;> rfl

theorem refreshFrom_getElem (fetch : ℕ → FetchOutcome) (l : List Holding) :
    ∀ (n i : ℕ), (refreshFrom fetch n l)[i]? =
      (l[i]?).map (fun h => refreshOne h (fetch (n + i))) := by
  induction l with
  | nil => intro n i; simp [refreshFrom]
  | cons h rest ih =>
    intro n i
    cases i with
    | zero => simp [refreshFrom]
    | succ j =>
      simp only [refreshFrom, List.getElem?_cons_succ]
      rw [ih (n + 1) j]
      have : n + 1 + j = n + (j + 1) := by omega
      rw [this]

theorem refreshFrom_length (fetch : ℕ → FetchOutcome) (l : List Holding) :
    ∀ n : ℕ, (refreshFrom fetch n l).length = l.length := by
  induction l with
  | nil => intro n; rfl
  | cons h rest ih => intro n; simp [refreshFrom, ih (n + 1)]

/-- C3: sequential sync length, order and identity invariant.  For
every holding list and every combination of per-index fetch outcomes,
refreshMarketPrices returns a list of the same length whose ids sit at
the same positions, and a position whose fetch returned no data or
threw keeps its exact prior record. -/
theorem refresh_length_order_identity (holdings : List Holding) (fetch : ℕ → FetchOutcome) :
    (refreshMarketPrices holdings fetch).length = holdings.length
    ∧ (∀ i : ℕ, ((refreshMarketPrices holdings fetch)[i]?).map Holding.id =
        (holdings[i]?).map Holding.id)
    ∧ (∀ i : ℕ, fetch i = .noData ∨ fetch i = .threw →
        (refreshMarketPrices holdings fetch)[i]? = holdings[i]?) := by
  refine ⟨refreshFrom_length fetch holdings 0, ?_, ?_⟩
  · intro i
    rw [refreshMarketPrices, refreshFrom_getElem fetch holdings 0 i]
    cases holdings[i]? with
    | none => rfl
    | some h => simp [refreshOne_id]
  · intro i hfail
    rw [refreshMarketPrices, refreshFrom_getElem fetch holdings 0 i]
    cases holdings[i]? with
    | none => rfl
    | some h =>
      rcases hfail with hf | hf <;> simp [Nat.zero_add, hf, refreshOne]

/-- Witness for refresh_length_order_identity: a refresh in which the
only fetch throws returns the input list unchanged at position 0. -/
theorem refresh_length_order_identity_witness :
    (refreshMarketPrices [sampleExisting] threwFetch)[0]? = some sampleExisting := by
  have h := refresh_length_order_identity [sampleExisting] threwFetch
  rw [h.2.2 0 (Or.inr rfl)]
  rfl

/-- Counterexample to C2 as stated: the adapter returns a fresh
positive current price 2 and no usable yesterday price for a holding
whose prior current price is 1; the synchronizer sets yesterdayPrice
to the prior 1, not to the refreshed current price 2, and the day
profit and loss of the refreshed record is 1, not zero. -/
theorem refresh_yesterday_fallback_cex :
    refreshMarketPrices [syncHolding] syncFetchNoYesterday =
        [refreshOne syncHolding (.ok syncDataNoYesterday)]
    ∧ (refreshOne syncHolding (.ok syncDataNoYesterday)).currentPrice = 2
    ∧ (refreshOne syncHolding (.ok syncDataNoYesterday)).yesterdayPrice = some 1
    ∧ (refreshOne syncHolding (.ok syncDataNoYesterday)).yesterdayPrice ≠
        some ((refreshOne syncHolding (.ok syncDataNoYesterday)).currentPrice)
    ∧ dayPL (refreshOne syncHolding (.ok syncDataNoYesterday)) = 1 := by
  refine ⟨rfl, ?_, ?_, ?_, ?_⟩ <;>
    norm_num [refreshOne, jsOrNum, jsOrStr, jsOrDate, dayPL, syncHolding, syncDataNoYesterday]

/-- C2 amended: for a holding whose fetch returned data without a
usable yesterday price, refreshMarketPrices sets yesterdayPrice to the
holding's prior current price (the value before this refresh step), so
the day profit and loss of the refreshed record measures the move of
the refreshed current price against the prior one and is zero exactly
when that price did not move. -/
theorem refresh_yesterday_fallback_prior (hs : List Holding) (fetch : ℕ → FetchOutcome)
    (i : ℕ) (h : Holding) (d : PartialHolding)
    (hi : hs[i]? = some h) (hf : fetch i = .ok d)
    (hy : d.yesterdayPrice = none ∨ d.yesterdayPrice = some 0) :
    (refreshMarketPrices hs fetch)[i]? = some (refreshOne h (.ok d))
    ∧ (refreshOne h (.ok d)).yesterdayPrice = some h.currentPrice
    ∧ dayPL (refreshOne h (.ok d)) =
        (if h.currentPrice = 0 then 0
         else ((refreshOne h (.ok d)).currentPrice - h.currentPrice) * h.quantity) := by
  have hyp : (refreshOne h (.ok d)).yesterdayPrice = some h.currentPrice := by
    rcases hy with hy | hy <;> simp [refreshOne, jsOrNum, hy]
  refine ⟨?_, hyp, ?_⟩
  · rw [refreshMarketPrices, refreshFrom_getElem fetch hs 0 i, hi, Nat.zero_add, hf]
    rfl
  · rw [dayPL, hyp]
    have hq : (refreshOne h (.ok d)).quantity = h.quantity := rfl
    rw [hq]

/-- Witness for refresh_yesterday_fallback_prior at the concrete
counterexample data. -/
theorem refresh_yesterday_fallback_prior_witness :
    (refreshMarketPrices [syncHolding] syncFetchNoYesterday)[0]? =
        some (refreshOne syncHolding (.ok syncDataNoYesterday))
    ∧ (refreshOne syncHolding (.ok syncDataNoYesterday)).yesterdayPrice =
        some syncHolding.currentPrice := by
  have h := refresh_yesterday_fallback_prior [syncHolding] syncFetchNoYesterday 0
    syncHolding syncDataNoYesterday rfl rfl (Or.inl rfl)
  exact ⟨h.1, h.2.1⟩

/-- Counterexample to C8 as stated: the adapter returns the negative
current price minus one for a holding whose prior current price is 5;
the returned value is not positive, yet the synchronizer replaces the
prior price by it instead of retaining the prior one. -/
theorem refresh_current_positive_cex :
    refreshMarketPrices [negHolding] negFetch = [refreshOne negHolding (.ok negData)]
    ∧ (refreshOne negHolding (.ok negData)).currentPrice = -1
    ∧ (refreshOne negHolding (.ok negData)).currentPrice ≠ negHolding.currentPrice := by
  refine ⟨rfl, ?_, ?_⟩ <;>
    norm_num [refreshOne, jsOrNum, negHolding, negData]

/-- C8 amended: the synchronizer retains the prior current price
exactly when the adapter returned no current price or the value zero,
and adopts any nonzero returned value, positive or negative. -/
theorem refresh_current_merge_back (hs : List Holding) (fetch : ℕ → FetchOutcome)
    (i : ℕ) (h : Holding) (d : PartialHolding)
    (hi : hs[i]? = some h) (hf : fetch i = .ok d) :
    (refreshMarketPrices hs fetch)[i]? = some (refreshOne h (.ok d))
    ∧ ((d.currentPrice = none ∨ d.currentPrice = some 0) →
        (refreshOne h (.ok d)).currentPrice = h.currentPrice)
    ∧ (∀ v : ℚ, d.currentPrice = some v → v ≠ 0 →
        (refreshOne h (.ok d)).currentPrice = v) := by
  refine ⟨?_, ?_, ?_⟩
  · rw [refreshMarketPrices, refreshFrom_getElem fetch hs 0 i, hi, Nat.zero_add, hf]
    rfl
  · intro hc
    rcases hc with hc | hc <;> simp [refreshOne, jsOrNum, hc]
  · intro v hv hvne
    simp [refreshOne, jsOrNum, hv, hvne]

/-- Witness for refresh_current_merge_back at the concrete negative
quote data. -/
theorem refresh_current_merge_back_witness :
    (refreshMarketPrices [negHolding] negFetch)[0]? =
        some (refreshOne negHolding (.ok negData))
    ∧ (refreshOne negHolding (.ok negData)).currentPrice = -1 := by
  have h := refresh_current_merge_back [negHolding] negFetch 0 negHolding negData rfl rfl
  exact ⟨h.1, h.2.2 (-1) rfl (by norm_num)⟩

/-- C9: the fund adapter resolution agrees, on every parse outcome for
the estimate and the NAV and on every pair of date strings, with the
policy as the specification words it: current price is the estimate
when it parses positive, else the NAV value or 0; yesterday price is
the NAV value or 0 always; price date is the estimate timestamp
exactly when the estimate was used, else the NAV date. -/
theorem fund_quote_resolution (fundName : String) (est nav : Option ℚ)
    (gztime jzrq : String) :
    fetchFundResolve fundName est nav gztime jzrq =
      fundQuoteSpec fundName est nav gztime jzrq := by
  cases est with
  | none => cases nav <;> rfl
  | some e =>
    by_cases he : 0 < e
    · cases nav <;> simp [fetchFundResolve, fundQuoteSpec, he]
    · cases nav <;> simp [fetchFundResolve, fundQuoteSpec, he]

/-! ### Profit sharing lemmas -/

theorem calculation_sharing_closed (c pl : ℚ) (hc : 0 < c) :
    (calculation c pl).sharingAmount =
      max 0 ((min pl (c * (5 / 100)) - c * (3 / 100)) * (20 / 100))
        + max 0 ((pl - c * (5 / 100)) * (50 / 100)) := by
  have hc0 : c ≠ 0 := ne_of_gt hc
  simp only [calculation]
  split_ifs with h0 hneg h3p hmid
  · exact absurd h0 hc0
  · have h1 : min pl (c * (5 / 100)) = pl := min_eq_left (by nlinarith)
    have h2 : max 0 ((pl - c * (3 / 100)) * (20 / 100)) = 0 := max_eq_left (by nlinarith)
    have h3 : max 0 ((pl - c * (5 / 100)) * (50 / 100)) = 0 := max_eq_left (by nlinarith)
    rw [h1, h2, h3]
    norm_num
  · push_neg at hneg
    have hple : pl ≤ c * (3 / 100) := by
      rw [div_le_iff₀ hc] at h3p
      linarith
    have h1 : min pl (c * (5 / 100)) = pl := min_eq_left (by nlinarith)
    have h2 : max 0 ((pl - c * (3 / 100)) * (20 / 100)) = 0 := max_eq_left (by nlinarith)
    have h3 : max 0 ((pl - c * (5 / 100)) * (50 / 100)) = 0 := max_eq_left (by nlinarith)
    rw [h1, h2, h3]
    norm_num
  · push_neg at hneg
    have hlow : c * (3 / 100) < pl := by
      have := hmid.1
      rw [gt_iff_lt, lt_div_iff₀ hc] at this
      linarith
    have hhigh : pl ≤ c * (5 / 100) := by
      have := hmid.2
      rw [div_le_iff₀ hc] at this
      linarith
    have h1 : min pl (c * (5 / 100)) = pl := min_eq_left (by linarith)
    have h2 : max 0 ((pl - c * (3 / 100)) * (20 / 100)) =
        (pl - c * (3 / 100)) * (20 / 100) := max_eq_right (by nlinarith)
    have h3 : max 0 ((pl - c * (5 / 100)) * (50 / 100)) = 0 := max_eq_left (by nlinarith)
    rw [h1, h2, h3]
    norm_num
  · push_neg at hneg h3p
    have hlow : c * (3 / 100) < pl := by
      rw [lt_div_iff₀ hc] at h3p
      linarith
    have hnot : ¬ pl / c ≤ 5 / 100 := by
      intro hle
      exact hmid ⟨h3p, hle⟩
    push_neg at hnot
    have hhigh : c * (5 / 100) < pl := by
      rw [lt_div_iff₀ hc] at hnot
      linarith
    have h1 : min pl (c * (5 / 100)) = c * (5 / 100) := min_eq_right (by linarith)
    have h2 : max 0 ((c * (5 / 100) - c * (3 / 100)) * (20 / 100)) =
        (c * (5 / 100) - c * (3 / 100)) * (20 / 100) := max_eq_right (by nlinarith)
    have h3 : max 0 ((pl - c * (5 / 100)) * (50 / 100)) =
        (pl - c * (5 / 100)) * (50 / 100) := max_eq_right (by nlinarith)
    rw [h1, h2, h3]

/-- C7: for every fixed positive total cost, the sharing amount is 0
whenever the profit rate is at most three percent, the branch formulas
agree at the three and five percent boundaries, and the sharing amount
is a monotonically non-decreasing function of the total profit. -/
theorem sharing_continuity_monotone (c : ℚ) (hc : 0 < c) :
    (∀ pl : ℚ, pl / c ≤ 3 / 100 → (calculation c pl).sharingAmount = 0)
    ∧ (calculation c (c * (3 / 100))).sharingAmount =
        (c * (3 / 100) - c * (3 / 100)) * (20 / 100)
    ∧ (calculation c (c * (5 / 100))).sharingAmount =
        (c * (5 / 100) - c * (3 / 100)) * (20 / 100)
          + (c * (5 / 100) - c * (5 / 100)) * (50 / 100)
    ∧ (∀ pl1 pl2 : ℚ, pl1 ≤ pl2 →
        (calculation c pl1).sharingAmount ≤ (calculation c pl2).sharingAmount) := by
  refine ⟨?_, ?_, ?_, ?_⟩
  · intro pl hrate
    rw [calculation_sharing_closed c pl hc]
    have hple : pl ≤ c * (3 / 100) := by
      rw [div_le_iff₀ hc] at hrate
      linarith
    have h1 : min pl (c * (5 / 100)) = pl := min_eq_left (by nlinarith)
    have h2 : max 0 ((pl - c * (3 / 100)) * (20 / 100)) = 0 := max_eq_left (by nlinarith)
    have h3 : max 0 ((pl - c * (5 / 100)) * (50 / 100)) = 0 := max_eq_left (by nlinarith)
    rw [h1, h2, h3]
    norm_num
  · rw [calculation_sharing_closed c _ hc]
    have h1 : min (c * (3 / 100)) (c * (5 / 100)) = c * (3 / 100) :=
      min_eq_left (by nlinarith)
    have h3 : max 0 ((c * (3 / 100) - c * (5 / 100)) * (50 / 100)) = 0 :=
      max_eq_left (by nlinarith)
    rw [h1, h3]
    norm_num
  · rw [calculation_sharing_closed c _ hc]
    have h1 : min (c * (5 / 100)) (c * (5 / 100)) = c * (5 / 100) := min_self _
    have h2 : max 0 ((c * (5 / 100) - c * (3 / 100)) * (20 / 100)) =
        (c * (5 / 100) - c * (3 / 100)) * (20 / 100) := max_eq_right (by nlinarith)
    rw [h1, h2]
    norm_num
  · intro pl1 pl2 h
    rw [calculation_sharing_closed c pl1 hc, calculation_sharing_closed c pl2 hc]
    have hmin : min pl1 (c * (5 / 100)) ≤ min pl2 (c * (5 / 100)) := min_le_min h le_rfl
    apply add_le_add
    · exact max_le_max le_rfl (by nlinarith)
    · exact max_le_max le_rfl (by nlinarith)

/-- Witness for sharing_continuity_monotone, matching concrete
scenarios 2 and 3 of the specification at cost 100000. -/
theorem sharing_continuity_monotone_witness :
    (calculation 100000 3000).sharingAmount = 0
    ∧ (calculation 100000 4000).sharingAmount ≤ (calculation 100000 8000).sharingAmount := by
  have h := sharing_continuity_monotone 100000 (by norm_num)
  exact ⟨h.1 3000 (by norm_num), h.2.2.2 4000 8000 (by norm_num)⟩

/-- C10: the profit sharing calculation returns two non-negative
amounts of which at least one is zero; the guarantee amount is nonzero
only for a nonzero cost and a strict loss, and the sharing amount is
nonzero only for a non-negative profit whose rate strictly exceeds
three percent. -/
theorem sharing_guarantee_sign (c pl : ℚ) :
    0 ≤ (calculation c pl).sharingAmount
    ∧ 0 ≤ (calculation c pl).guaranteeAmount
    ∧ ((calculation c pl).sharingAmount = 0 ∨ (calculation c pl).guaranteeAmount = 0)
    ∧ ((calculation c pl).guaranteeAmount ≠ 0 → c ≠ 0 ∧ pl < 0)
    ∧ ((calculation c pl).sharingAmount ≠ 0 → 0 ≤ pl ∧ 3 / 100 < pl / c) := by
  by_cases h0 : c = 0
  · have hcalc : calculation c pl = { sharingAmount := 0, guaranteeAmount := 0 } := by
      simp [calculation, h0]
    rw [hcalc]
    exact ⟨le_rfl, le_rfl, Or.inl rfl, fun hg => absurd rfl hg, fun hs => absurd rfl hs⟩
  by_cases hneg : pl < 0
  · have hcalc : calculation c pl = { sharingAmount := 0, guaranteeAmount := |pl| } := by
      simp [calculation, h0, hneg]
    rw [hcalc]
    exact ⟨le_rfl, abs_nonneg pl, Or.inl rfl, fun _ => ⟨h0, hneg⟩,
      fun hs => absurd rfl hs⟩
  push_neg at hneg
  by_cases h3p : pl / c ≤ 3 / 100
  · have hcalc : calculation c pl = { sharingAmount := 0, guaranteeAmount := 0 } := by
      simp [calculation, h0, not_lt.mpr hneg, h3p]
    rw [hcalc]
    exact ⟨le_rfl, le_rfl, Or.inl rfl, fun hg => absurd rfl hg, fun hs => absurd rfl hs⟩
  push_neg at h3p
  have hcpos : 0 < c := by
    rcases lt_trichotomy c 0 with hlt | heq | hgt
    · have : pl / c ≤ 0 := div_nonpos_iff.mpr (Or.inl ⟨hneg, hlt.le⟩)
      linarith
    · exact absurd heq h0
    · exact hgt
  have hlow : c * (3 / 100) < pl := by
    have h3p2 := h3p
    rw [lt_div_iff₀ hcpos] at h3p2
    linarith
  by_cases hmid : pl / c > 3 / 100 ∧ pl / c ≤ 5 / 100
  · have hcalc : calculation c pl =
        { sharingAmount := (pl - c * (3 / 100)) * (20 / 100), guaranteeAmount := 0 } := by
      simp [calculation, h0, not_lt.mpr hneg, not_le.mpr h3p, hmid]
    have hsh : 0 ≤ (pl - c * (3 / 100)) * (20 / 100) := by nlinarith
    rw [hcalc]
    exact ⟨hsh, le_rfl, Or.inr rfl, fun hg => absurd rfl hg, fun _ => ⟨hneg, h3p⟩⟩
  · have hnot : ¬ pl / c ≤ 5 / 100 := fun hle => hmid ⟨h3p, hle⟩
    push_neg at hnot
    have hhigh : c * (5 / 100) < pl := by
      rw [lt_div_iff₀ hcpos] at hnot
      linarith
    have hcalc : calculation c pl =
        { sharingAmount := (c * (5 / 100) - c * (3 / 100)) * (20 / 100)
            + (pl - c * (5 / 100)) * (50 / 100), guaranteeAmount := 0 } := by
      simp [calculation, h0, not_lt.mpr hneg, not_le.mpr h3p, hmid]
    have hsh : 0 ≤ (c * (5 / 100) - c * (3 / 100)) * (20 / 100)
        + (pl - c * (5 / 100)) * (50 / 100) := by nlinarith
    rw [hcalc]
    exact ⟨hsh, le_rfl, Or.inr rfl, fun hg => absurd rfl hg, fun _ => ⟨hneg, h3p⟩⟩

/-- Witness for sharing_guarantee_sign at concrete scenario 4 of the
specification: cost 100000 and loss 2500. -/
theorem sharing_guarantee_sign_witness :
    0 ≤ (calculation 100000 (-2500)).sharingAmount
    ∧ ((100000 : ℚ) ≠ 0 ∧ (-2500 : ℚ) < 0) := by
  have h := sharing_guarantee_sign 100000 (-2500)
  refine ⟨h.1, h.2.2.2.1 ?_⟩
  norm_num [calculation]

end WealthTrack
